import Mathlib

/-!
Verification of the lichess-puzzle-printer repository against its
natural-language specification.  The Python sources
(src/puzzle_printer.py, src/app.py) are shallowly embedded: pure
functions become Lean functions, the external chess engine
(python-chess), the network and the PIL/reportlab drawing layer are
modelled as explicit parameters, and fallible code returns
Option/Except.
-/

namespace PuzzlePrinter

open List

/-! ## Python module compilation: the indentation model

puzzle_printer.py line 204 opens the first class named
ChessBoardRenderer.  Its class body (lines 205-279) is indented 8
columns, while the method definitions that follow (line 281,
get_available_themes) are indented 4 columns.  CPython tokenizes the
whole module, maintaining an indentation stack, before it executes any
statement.  We embed that algorithm together with the (line, indent)
pairs of the logical source lines of the region, read off the file
verbatim; blank lines, comment-only lines and the bracket-continuation
lines 263-268 produce no INDENT/DEDENT tokens and are therefore not
listed. -/

inductive PyErr where
  | indentationError (line : Nat)
  | nameError (nm : String)
  deriving DecidableEq

/-- CPython dedent handling: pop the indentation stack until the new
indent matches an enclosing level; a dedent that matches no level on
the stack is an IndentationError (unindent does not match any outer
indentation level). -/
def dedentTo (line : Nat) (i : Nat) : List Nat → Except PyErr (List Nat)
  | [] => Except.error (PyErr.indentationError line)
  | t :: s =>
    if t = i then Except.ok (t :: s)
    else if i < t then dedentTo line i s
    else Except.error (PyErr.indentationError line)

/-- One logical line: a strictly larger indent pushes a level, anything
else must dedent back to an enclosing level. -/
def indentStep (line : Nat) (i : Nat) (stack : List Nat) : Except PyErr (List Nat) :=
  match stack with
  | [] => Except.error (PyErr.indentationError line)
  | t :: s => if t < i then Except.ok (i :: t :: s) else dedentTo line i (t :: s)

/-- Run the tokenizer indentation algorithm over a list of
(line number, indent) pairs. -/
def indentScan (stack : List Nat) : List (Nat × Nat) → Except PyErr Unit
  | [] => Except.ok ()
  | (line, i) :: rest =>
    match indentStep line i stack with
    | Except.error e => Except.error e
    | Except.ok stack2 => indentScan stack2 rest

/-- The logical lines of puzzle_printer.py from line 204 (the first
class ChessBoardRenderer, a fresh top-level statement, so the
indentation stack is exactly [0] there) through line 281 (the first
method definition).  Each pair is (physical line number, indent). -/
def rendererRegionLines : List (Nat × Nat) :=
  [(204, 0), (205, 8), (206, 8), (208, 8), (209, 8), (212, 8),
   (213, 12), (214, 12), (215, 12), (216, 8), (217, 12), (218, 12),
   (219, 12), (222, 12), (223, 12), (225, 12), (228, 12), (229, 16),
   (230, 20), (231, 20), (232, 24), (233, 24), (234, 28), (235, 24),
   (236, 24), (238, 24), (239, 28), (241, 12), (244, 8), (245, 8),
   (247, 8), (248, 12), (250, 12), (251, 16), (252, 20), (253, 20),
   (254, 20), (255, 20), (256, 20), (258, 20), (259, 24), (262, 20),
   (271, 20), (272, 24), (274, 16), (276, 20), (278, 8), (279, 8),
   (281, 4)]

/-! ## Hypothetical class-body execution

Had the region compiled, Python would execute the class-body
statements at class-definition time in a scope that sees the module
globals and builtins but not the unbound name self.  We model the
expressions by their evaluation-order name uses. -/

inductive PyExpr where
  | lit (s : String)
  | name (s : String)
  | attr (e : PyExpr) (field : String)
  | call1 (f : PyExpr) (arg : PyExpr)
  | binop (a : PyExpr) (b : PyExpr)

/-- Evaluate an expression in a scope: literals succeed, a name lookup
fails with NameError when the name is unbound, attribute access
evaluates its base, a call evaluates the callee then the argument, a
binary operation evaluates left then right (CPython evaluation
order). -/
def evalE (env : List String) : PyExpr → Except PyErr Unit
  | PyExpr.lit _ => Except.ok ()
  | PyExpr.name s => if env.contains s then Except.ok () else Except.error (PyErr.nameError s)
  | PyExpr.attr e _ => evalE env e
  | PyExpr.call1 f a => do
      evalE env f
      evalE env a
  | PyExpr.binop a b => do
      evalE env a
      evalE env b

inductive PyStmt where
  | exprStmt (e : PyExpr)
  | importMod (m : String)
  | ifCond (cond : PyExpr)

/-- Execute statements in order: an expression statement evaluates its
expression, an import binds the module name, an if-statement first
evaluates its condition.  In the modelled class body the evaluation of
the first if-condition raises, so the branches of that statement and
every later statement of the body are unreachable and are not
listed. -/
def execBody (env : List String) : List PyStmt → Except PyErr (List String)
  | [] => Except.ok env
  | PyStmt.exprStmt e :: rest => do
      let _ ← evalE env e
      execBody env rest
  | PyStmt.importMod m :: rest => execBody (m :: env) rest
  | PyStmt.ifCond c :: rest => do
      let _ ← evalE env c
      execBody env rest

/-- Names visible to the class body of line 204 at class-definition
time: the module-level imports of lines 7-22, the class PuzzleFetcher
defined above it, and the builtins the body uses.  The name self is
not among them: self is only ever a method parameter. -/
def moduleGlobalsAtClassDef : List String :=
  ["argparse", "csv", "io", "random", "requests", "List", "Dict",
   "Tuple", "chess", "letter", "inch", "canvas", "ImageReader",
   "Image", "ImageDraw", "ImageFont", "re", "ET", "zstd",
   "PuzzleFetcher", "print", "open", "len", "int", "str", "enumerate"]

/-- puzzle_printer.py lines 205-212, the statements of the first
ChessBoardRenderer class body up to and including the first statement
whose evaluation reads the unbound name self
(if os.path.exists(self.LOCAL_DB_PATH):).  Its condition evaluates
os.path.exists and then the argument self.LOCAL_DB_PATH, so the lookup
of self is reached and raises; everything after it is unreachable. -/
def rendererClassBodyPrefix : List PyStmt :=
  [PyStmt.exprStmt (PyExpr.lit "Download and load the entire puzzle database into memory."),
   PyStmt.importMod "os",
   PyStmt.exprStmt (PyExpr.call1 (PyExpr.name "print") (PyExpr.binop (PyExpr.lit "=") (PyExpr.lit "60"))),
   PyStmt.exprStmt (PyExpr.call1 (PyExpr.name "print") (PyExpr.lit "Loading Lichess puzzle database...")),
   PyStmt.ifCond (PyExpr.call1 (PyExpr.attr (PyExpr.attr (PyExpr.name "os") "path") "exists")
     (PyExpr.attr (PyExpr.name "self") "LOCAL_DB_PATH"))]

/-! ## Data model of the acquisition pipeline (class PuzzleFetcher)

Raw puzzle data as it arrives from the network is a dict; dict.get with
a default is modelled by Option fields with getD.  An entry of the
activity response that lacks the puzzle key yields the empty dict,
i.e. the record with no field present. -/

structure PuzzleData where
  pid : Option String
  fen : Option String
  rating : Option Int
  themes : List String
  solution : List String
  deriving DecidableEq

/-- A formatted puzzle as returned by _format_api_puzzle. -/
structure Puzzle where
  pid : String
  fen : String
  moves : List String
  rating : Int
  themes : List String
  deriving DecidableEq

/-- The external chess engine (python-chess), a black box per the
specification.  parseBoard models chess.Board(fen) (none = the
constructor raised on an unparsable position); fromUci models
chess.Move.from_uci (none = raised on an unparsable coordinate move);
push models board.push, which in python-chess applies any well-formed
move without checking legality and does not raise, hence it is total;
fenOf models board.fen(); turn models board.turn (true = White);
isLegal models membership in board.legal_moves; san models
board.san(move) for a legal move; fullmoveNumber models
board.fullmove_number. -/
structure ChessRules (Board : Type) (Move : Type) where
  parseBoard : String → Option Board
  fromUci : String → Option Move
  push : Board → Move → Board
  fenOf : Board → String
  turn : Board → Bool
  isLegal : Board → Move → Bool
  san : Board → Move → String
  fullmoveNumber : Board → Nat

/-- The default FEN used by _format_api_puzzle when the record has no
fen field. -/
def startFen : String := "rnbqkbnr/pppppppp/8/8/8/8/PPPPPPPP/RNBQKBNR w KQkq - 0 1"

/-- Python str.lower, restricted to ASCII - the alphabet of Lichess
theme tags - and implemented over the character list so that it
evaluates inside the kernel. -/
def lowerChar (c : Char) : Char :=
  if 65 ≤ c.toNat && c.toNat ≤ 90 then Char.ofNat (c.toNat + 32) else c

/-- s.lower() as used by the theme comparisons. -/
def pyLower (s : String) : String := String.mk (s.data.map lowerChar)

/-- The empty dict is falsy: no field present. -/
def isEmptyData (d : PuzzleData) : Bool :=
  d.pid.isNone && d.fen.isNone && d.rating.isNone && d.themes.isEmpty && d.solution.isEmpty

/-- _matches_criteria (lines 150-164): reject the empty dict, then
reject by rating (dict default 0) and by case-insensitive theme
membership. -/
def matches_criteria (d : PuzzleData) (theme : String) (minRating maxRating : Int) : Bool :=
  if isEmptyData d then false
  else
    let rating := d.rating.getD 0
    if rating < minRating || rating > maxRating then false
    else if !((d.themes.map pyLower).contains (pyLower theme)) then false
    else true

/-- The inline filter of the activity loop (lines 75-83): rating with
dict default 0, then case-insensitive theme membership. -/
def activityFilter (d : PuzzleData) (theme : String) (minRating maxRating : Int) : Bool :=
  let rating := d.rating.getD 0
  if rating < minRating || rating > maxRating then false
  else if !((d.themes.map pyLower).contains (pyLower theme)) then false
  else true

/-- _format_api_puzzle (lines 166-201).  Returns none for the empty
dict (Python returns None there; every call site has already passed
the record through a theme filter, which the empty dict cannot
satisfy).  Otherwise the try block parses the stated initial position
and applies the first solution move to derive the puzzle position;
when chess.Board or chess.Move.from_uci raises, the except branch
falls back to the unmodified initial position together with the full
un-sliced move list. -/
def format_api_puzzle {B M : Type} (R : ChessRules B M) (d : PuzzleData) : Option Puzzle :=
  if isEmptyData d then none
  else
    let initialFen := d.fen.getD startFen
    let solutionMoves := d.solution
    let derived : String × List String :=
      match R.parseBoard initialFen with
      | none => (initialFen, solutionMoves)
      | some board =>
        match solutionMoves with
        | [] => (initialFen, [])
        | m0 :: restMoves =>
          match R.fromUci m0 with
          | none => (initialFen, solutionMoves)
          | some mv => (R.fenOf (R.push board mv), restMoves)
    some ⟨d.pid.getD "unknown", derived.1, derived.2, d.rating.getD 1000, d.themes⟩

/-- The derivation step of _format_api_puzzle fails (the try block
raises) iff the stated initial position does not parse or the first
solution move does not parse.  board.push itself never raises in
python-chess, so an illegal-but-well-formed setup move does not
fail. -/
def derivationFails {B M : Type} (R : ChessRules B M) (d : PuzzleData) : Bool :=
  match R.parseBoard (d.fen.getD startFen) with
  | none => true
  | some _ =>
    match d.solution with
    | [] => false
    | m0 :: _ => (R.fromUci m0).isNone

/-- The collection loop of fetch_puzzles_by_theme over the activity
entries (lines 70-85): stop once count matches are collected,
otherwise filter by rating and theme and append the formatted
record. -/
def collectActivity {B M : Type} (R : ChessRules B M) (theme : String)
    (minRating maxRating : Int) (count : Nat) (acc : List Puzzle) :
    List PuzzleData → List Puzzle
  | [] => acc
  | d :: rest =>
    if count ≤ acc.length then acc
    else if activityFilter d theme minRating maxRating then
      collectActivity R theme minRating maxRating count (acc ++ (format_api_puzzle R d).toList) rest
    else
      collectActivity R theme minRating maxRating count acc rest

/-- The probing loop of _fetch_random_puzzles (lines 124-148).
probe i is the outcome of the i-th random-ID request (none models a
request error, a timeout or a non-200 response, all silently
skipped).  The Python loop runs while len(puzzles) < count and
attempts < count * 50; here fuel = count * 50 - attempts, and the pair
returned is (puzzles, attempts made). -/
def fetchRandomGo {B M : Type} (R : ChessRules B M) (probe : Nat → Option PuzzleData)
    (theme : String) (minRating maxRating : Int) (count : Nat) :
    Nat → Nat → List Puzzle → List Puzzle × Nat
  | 0, attempts, puzzles => (puzzles, attempts)
  | fuel + 1, attempts, puzzles =>
    if puzzles.length < count then
      let puzzles2 :=
        match probe attempts with
        | none => puzzles
        | some d =>
          if matches_criteria d theme minRating maxRating then
            puzzles ++ (format_api_puzzle R d).toList
          else puzzles
      fetchRandomGo R probe theme minRating maxRating count fuel (attempts + 1) puzzles2
    else (puzzles, attempts)

/-- _fetch_random_puzzles (lines 104-148): first try the daily puzzle
(none models any request failure), then probe randomly generated IDs
with a hard cap of count * 50 attempts. -/
def fetch_random_puzzles {B M : Type} (R : ChessRules B M) (daily : Option PuzzleData)
    (probe : Nat → Option PuzzleData) (theme : String) (minRating maxRating : Int)
    (count : Nat) : List Puzzle × Nat :=
  let init : List Puzzle :=
    match daily with
    | none => []
    | some d =>
      if matches_criteria d theme minRating maxRating then (format_api_puzzle R d).toList
      else []
  fetchRandomGo R probe theme minRating maxRating count (count * 50) 0 init

/-- fetch_puzzles_by_theme (lines 38-102).  activity = some entries
models a 200 response whose body holds those records (an entry without
a puzzle object contributes the empty dict); activity = none models a
raised request error, in which case the whole count is delegated to
_fetch_random_puzzles (a non-200 response leaves puzzles empty and
then delegates the whole count as well, which coincides with
activity = some []).  The result is sliced to count records. -/
def fetch_puzzles_by_theme {B M : Type} (R : ChessRules B M)
    (activity : Option (List PuzzleData)) (daily : Option PuzzleData)
    (probe : Nat → Option PuzzleData) (theme : String) (minRating maxRating : Int)
    (count : Nat) : List Puzzle :=
  let puzzles :=
    match activity with
    | some entries =>
      let fromActivity := collectActivity R theme minRating maxRating count [] entries
      if fromActivity.length < count then
        fromActivity ++
          (fetch_random_puzzles R daily probe theme minRating maxRating (count - fromActivity.length)).1
      else fromActivity
    | none => (fetch_random_puzzles R daily probe theme minRating maxRating count).1
  puzzles.take count

/-- _sample_from_cache, conversion loop only (lines 330-358 of the
first, never-compiled ChessBoardRenderer class): sampled is the list
random.sample returned; a record whose derivation raises is skipped
entirely. -/
def sampleFromCacheConvert {B M : Type} (R : ChessRules B M) :
    List PuzzleData → List Puzzle
  | [] => []
  | d :: rest =>
    let fenStr := d.fen.getD ""
    match R.parseBoard fenStr with
    | none => sampleFromCacheConvert R rest
    | some board =>
      match d.solution with
      | [] => ⟨d.pid.getD "", fenStr, [], d.rating.getD 0, d.themes⟩ :: sampleFromCacheConvert R rest
      | m0 :: restMoves =>
        match R.fromUci m0 with
        | none => sampleFromCacheConvert R rest
        | some mv =>
          ⟨d.pid.getD "", R.fenOf (R.push board mv), restMoves, d.rating.getD 0, d.themes⟩ ::
            sampleFromCacheConvert R rest

/-! ## The position renderer (second class ChessBoardRenderer,
lines 602-767) -/

/-- A PIL image, abstracted to its pixel dimensions. -/
structure Img where
  width : Nat
  height : Nat
  deriving DecidableEq

/-- The blank placeholder produced by the except branch of
render_position: Image.new(RGB, (400, 400), white). -/
def blankImage : Img := ⟨400, 400⟩

/-- The environment render_position runs in: the chess engine plus the
PIL drawing phase.  drawBoard stands for the whole body of the try
block of lines 653-762 (square grid, piece glyphs, coordinate labels;
its font and text primitives are external and may raise, which an
error value models); it receives the parsed board, the flipped flag
and the parsed highlight move. -/
structure RenderEnv (Board : Type) (Move : Type) where
  rules : ChessRules Board Move
  drawBoard : Board → Bool → Option Move → Except String Img

/-- render_position (lines 606-767).  chess.Board(fen) on line 618 is
evaluated outside any try block, so an unparsable position raises out
of the function; the orientation is flipped exactly when Black is to
move; the highlight move is parsed under its own try/except (an
unparsable move silently becomes None, line 627-631); the drawing
phase is wrapped in try/except and any failure there is replaced by
the blank 400 by 400 placeholder (lines 764-767).  The chess.svg.board
string of lines 634-647 is computed and then never used by the PIL
path, so it is not modelled. -/
def render_position {B M : Type} (E : RenderEnv B M) (fen : String)
    (lastMove : Option String) : Except String Img :=
  match E.rules.parseBoard fen with
  | none => Except.error ("invalid fen: " ++ fen)
  | some board =>
    let flipped := !E.rules.turn board
    let lastMoveObj : Option M :=
      match lastMove with
      | none => none
      | some lm => E.rules.fromUci lm
    match E.drawBoard board flipped lastMoveObj with
    | Except.ok img => Except.ok img
    | Except.error _ => Except.ok blankImage

/-! ## The notation formatter (_format_solution, lines 993-1037) -/

/-- Replace piece letters with Unicode symbols, in the insertion order
of the piece_symbols dict: K, Q, R, B, N (lines 999-1001 and
1019-1022). -/
def sanSubst (san : String) : String :=
  ((((san.replace "K" "♔").replace "Q" "♕").replace "R" "♖").replace "B" "♗").replace "N" "♘"

/-- Python substring membership: pat in s. -/
def strContains (s pat : String) : Bool :=
  (s.splitOn pat).length ≠ 1

/-- The move loop of _format_solution (lines 1006-1035), carrying the
working position and the solution_parts accumulator.  A move whose
UCI text does not parse raises inside the try and the except branch
appends the bracketed raw move (line 1035); a parseable move that is
not legal in the working position appends the bracketed raw move and
continues without advancing the position (lines 1011-1014); otherwise
the SAN text is computed, piece letters are replaced by glyphs, the
token is prefixed with the full-move number (always for White; for
Black only when the previous token does not already contain three
dots), and the working position is advanced. -/
def formatPartsAux {B M : Type} (R : ChessRules B M) :
    B → List String → List String → List String
  | _, acc, [] => acc
  | board, acc, mUci :: rest =>
    match R.fromUci mUci with
    | none => formatPartsAux R board (acc ++ ["[" ++ mUci ++ "]"]) rest
    | some mv =>
      if !R.isLegal board mv then
        formatPartsAux R board (acc ++ ["[" ++ mUci ++ "]"]) rest
      else
        let sanSym := sanSubst (R.san board mv)
        let moveNum := toString (R.fullmoveNumber board)
        let tok :=
          if R.turn board then moveNum ++ ". " ++ sanSym
          else
            match acc.getLast? with
            | none => moveNum ++ "... " ++ sanSym
            | some lastTok =>
              if !strContains lastTok "..." then moveNum ++ "... " ++ sanSym
              else sanSym
        formatPartsAux R (R.push board mv) (acc ++ [tok]) rest

/-- The solution_parts list _format_solution builds for a move
list. -/
def formatSolutionParts {B M : Type} (R : ChessRules B M) (board : B)
    (moves : List String) : List String :=
  formatPartsAux R board [] moves

/-- _format_solution (lines 993-1037): an empty move list returns the
fixed sentinel; otherwise the tokens of the loop are joined with
single spaces (the second sentinel of line 1037 would need an empty
token list from a non-empty move list). -/
def format_solution {B M : Type} (R : ChessRules B M) (board : B)
    (moves : List String) : String :=
  if moves.isEmpty then "No solution available"
  else
    let parts := formatSolutionParts R board moves
    if parts.isEmpty then "Error formatting solution"
    else String.intercalate " " parts

/-! ## The PDF layout engine (class PuzzlePDFGenerator, lines 770-937) -/

/-- One solution line as drawn by _draw_all_solutions: the reader-facing
puzzle number (the original index + 1, not compacted), the formatted
solution text and the reference URL. -/
structure SolutionLine where
  num : Nat
  text : String
  url : String
  deriving DecidableEq

/-- A page of the generated document. -/
inductive Page where
  | puzzlePage (diagrams : List Puzzle)
  | solutionPage (lines : List SolutionLine)

/-- puzzles_per_page = 9 (3 by 3 grid). -/
def puzzlesPerPage : Nat := 9

/-- The chunking loop of generate (lines 808-811):
for i in range(0, len(puzzles), 9): puzzles[i:i+9]. -/
def puzzlePageChunks (puzzles : List Puzzle) : List (List Puzzle) :=
  if puzzles.isEmpty then []
  else puzzles.take puzzlesPerPage :: puzzlePageChunks (puzzles.drop puzzlesPerPage)
termination_by puzzles.length
decreasing_by
  rename_i h
  simp only [List.length_drop, puzzlesPerPage]
  have h2 : puzzles ≠ [] := by simpa [List.isEmpty_iff] using h
  have h3 : 0 < puzzles.length := List.length_pos.mpr h2
  omega

/-- Geometry constants of _draw_all_solutions in points
(letter page height 792, 1 inch = 72): the cursor starts at
height - 1 inch, each line is 0.18 inch = 324/25, the bottom margin is
0.5 inch, at most 30 solution lines per page. -/
def solPageTopY : ℚ := 792 - 72

def solLineHeight : ℚ := 324 / 25

def solBottomMargin : ℚ := 36

def solutionsPerPage : Nat := 30

/-- The page-break check at the top of each loop iteration of
_draw_all_solutions (lines 891-897): when the cursor has crossed the
bottom margin or the page already holds 30 lines, showPage closes the
current page and a fresh page with a repeated header begins. -/
def solBreak (y : ℚ) (onPage : Nat) (cur : List SolutionLine)
    (done : List (List SolutionLine)) :
    ℚ × Nat × List SolutionLine × List (List SolutionLine) :=
  if y < solBottomMargin || solutionsPerPage ≤ onPage then
    (solPageTopY, 0, [], done ++ [cur])
  else (y, onPage, cur, done)

/-- The per-puzzle loop of _draw_all_solutions (lines 888-931).  Each
iteration first runs the page-break check; then a puzzle missing its
position or its move list is skipped without consuming a line;
otherwise the solution text is formatted (chess.Board(fen) raising is
caught and replaced by an error text) and one line is emitted.  The
final page, holding whatever has been drawn since the last break -
possibly nothing beyond its header - is always part of the
document. -/
def drawSolutionsGo {B M : Type} (R : ChessRules B M) :
    List (Nat × Puzzle) → ℚ → Nat → List SolutionLine → List (List SolutionLine) →
      List (List SolutionLine)
  | [], _, _, cur, done => done ++ [cur]
  | (num, p) :: rest, y, onPage, cur, done =>
    let s := solBreak y onPage cur done
    if p.fen = "" || p.moves.isEmpty then
      drawSolutionsGo R rest s.1 s.2.1 s.2.2.1 s.2.2.2
    else
      let text :=
        match R.parseBoard p.fen with
        | some board => format_solution R board p.moves
        | none => "Error: invalid fen"
      let url := if p.pid = "" then "" else "https://lichess.org/training/" ++ p.pid
      drawSolutionsGo R rest (s.1 - solLineHeight) (s.2.1 + 1) (s.2.2.1 ++ [⟨num, text, url⟩]) s.2.2.2

/-- _draw_all_solutions (lines 873-931): the header of the first
solution page is drawn before the loop, so one solution page is open
from the start; the numbering enumerates the original puzzle list from
1. -/
def draw_all_solutions {B M : Type} (R : ChessRules B M) (puzzles : List Puzzle) :
    List (List SolutionLine) :=
  drawSolutionsGo R (puzzles.enum.map (fun ip => (ip.1 + 1, ip.2))) solPageTopY 0 [] []

/-- _draw_puzzle_page (lines 819-845) draws at most the 9 grid slots:
the loop breaks once idx reaches len(positions) = 9. -/
def drawPuzzlePage (pagePuzzles : List Puzzle) : Page :=
  Page.puzzlePage (pagePuzzles.take 9)

/-- generate (lines 795-817): one puzzle page per 9-chunk of the
puzzle list, then all solutions flowing over as many solution pages as
needed. -/
def generate {B M : Type} (R : ChessRules B M) (puzzles : List Puzzle) : List Page :=
  (puzzlePageChunks puzzles).map drawPuzzlePage ++
    (draw_all_solutions R puzzles).map Page.solutionPage

/-- The puzzle pages of a document, in order. -/
def puzzlePagesOf : List Page → List (List Puzzle)
  | [] => []
  | Page.puzzlePage ds :: rest => ds :: puzzlePagesOf rest
  | Page.solutionPage _ :: rest => puzzlePagesOf rest

/-- The solution pages of a document, in order. -/
def solutionPagesOf : List Page → List (List SolutionLine)
  | [] => []
  | Page.puzzlePage _ :: rest => solutionPagesOf rest
  | Page.solutionPage ls :: rest => ls :: solutionPagesOf rest

/-! ## Concrete test doubles

A small executable instance of the external chess engine, used only to
instantiate counterexamples and witnesses at concrete inputs.  Boards
and moves are strings; the position text "badfen" fails to parse, the
move text "badmove" fails to parse, the move "a1a1" is the one illegal
move, and a board whose text ends in "w" has White to move. -/

def demoRules : ChessRules String String :=
  ⟨fun s => if s = "badfen" then none else some s,
   fun m => if m = "badmove" then none else some m,
   fun b m => b ++ "/" ++ m,
   fun b => b,
   fun b => b.endsWith "w",
   fun _ m => m != "a1a1",
   fun _ m => "N" ++ m,
   fun _ => 3⟩

/-- A render environment whose drawing phase succeeds. -/
def demoRenderEnvOk : RenderEnv String String :=
  ⟨demoRules, fun _ _ _ => Except.ok ⟨480, 480⟩⟩

/-- A render environment whose drawing phase raises. -/
def demoRenderEnvFail : RenderEnv String String :=
  ⟨demoRules, fun _ _ _ => Except.error "font failure"⟩

/-- A raw record whose derivation step fails: the first solution move
does not parse. -/
def dFail : PuzzleData := ⟨some "d1", some "fenA w", some 1000, ["fork"], ["badmove", "x1", "x2"]⟩

/-- The formatted record _format_api_puzzle produces for dFail: the
unmodified initial position together with the full un-sliced move
list. -/
def pFail : Puzzle := ⟨"d1", "fenA w", ["badmove", "x1", "x2"], 1000, ["fork"]⟩

/-- A matching raw record. -/
def dDup : PuzzleData := ⟨some "aaa", some "fenA w", some 1000, ["fork"], []⟩

/-- Its formatted form. -/
def pDup : Puzzle := ⟨"aaa", "fenA w", [], 1000, ["fork"]⟩

/-- A matching raw record that carries no rating field. -/
def dNoRating : PuzzleData := ⟨some "p1", some "fenA w", none, ["fork"], []⟩

/-- Its formatted form: the formatting default 1000 replaces the
missing rating. -/
def pNoRating : Puzzle := ⟨"p1", "fenA w", [], 1000, ["fork"]⟩

/-! ## Helper lemmas -/

theorem fetchRandomGo_attempts_le {B M : Type} (R : ChessRules B M)
    (probe : Nat → Option PuzzleData) (theme : String) (minRating maxRating : Int)
    (count : Nat) :
    ∀ (fuel attempts : Nat) (puzzles : List Puzzle),
      (fetchRandomGo R probe theme minRating maxRating count fuel attempts puzzles).2 ≤
        attempts + fuel := by
  intro fuel
  induction fuel with
  | zero => intro attempts puzzles; simp [fetchRandomGo]
  | succ n ih =>
    intro attempts puzzles
    simp only [fetchRandomGo]
    split
    · exact le_trans (ih (attempts + 1) _) (by omega)
    · omega

theorem puzzlePageChunks_length (l : List Puzzle) :
    (puzzlePageChunks l).length = (l.length + 8) / 9 := by
  induction l using puzzlePageChunks.induct with
  | case1 l hl =>
    have hnil : l = [] := List.isEmpty_iff.mp hl
    subst hnil
    simp [puzzlePageChunks]
  | case2 l hl ih =>
    have hpos : 0 < l.length := by
      cases l with
      | nil => simp at hl
      | cons a as => simp
    rw [puzzlePageChunks.eq_def]
    rw [if_neg hl]
    simp only [List.length_cons, ih, List.length_drop]
    simp only [puzzlesPerPage]
    omega

theorem drawSolutionsGo_length {B M : Type} (R : ChessRules B M) :
    ∀ (lst : List (Nat × Puzzle)) (y : ℚ) (onPage : Nat) (cur : List SolutionLine)
      (done : List (List SolutionLine)),
      done.length + 1 ≤ (drawSolutionsGo R lst y onPage cur done).length := by
  intro lst
  induction lst with
  | nil => intro y onPage cur done; simp [drawSolutionsGo]
  | cons hd tl ih =>
    intro y onPage cur done
    obtain ⟨num, p⟩ := hd
    have hbrk : done.length ≤ (solBreak y onPage cur done).2.2.2.length := by
      unfold solBreak
      split <;> simp
    simp only [drawSolutionsGo]
    split
    · exact le_trans (by omega) (ih _ _ _ _)
    · exact le_trans (by omega) (ih _ _ _ _)

theorem puzzlePagesOf_append (a b : List Page) :
    puzzlePagesOf (a ++ b) = puzzlePagesOf a ++ puzzlePagesOf b := by
  induction a with
  | nil => simp [puzzlePagesOf]
  | cons hd tl ih => cases hd <;> simp [puzzlePagesOf, ih]

theorem solutionPagesOf_append (a b : List Page) :
    solutionPagesOf (a ++ b) = solutionPagesOf a ++ solutionPagesOf b := by
  induction a with
  | nil => simp [solutionPagesOf]
  | cons hd tl ih => cases hd <;> simp [solutionPagesOf, ih]

theorem puzzlePagesOf_map_sol (ls : List (List SolutionLine)) :
    puzzlePagesOf (ls.map Page.solutionPage) = [] := by
  induction ls with
  | nil => simp [puzzlePagesOf]
  | cons hd tl ih => simp [puzzlePagesOf, ih]

theorem solutionPagesOf_map_sol (ls : List (List SolutionLine)) :
    solutionPagesOf (ls.map Page.solutionPage) = ls := by
  induction ls with
  | nil => simp [solutionPagesOf]
  | cons hd tl ih => simp [solutionPagesOf, ih]

theorem puzzlePagesOf_map_drawn (chs : List (List Puzzle)) :
    puzzlePagesOf (chs.map drawPuzzlePage) = chs.map (fun ch => ch.take 9) := by
  induction chs with
  | nil => simp [puzzlePagesOf]
  | cons hd tl ih => simp [puzzlePagesOf, drawPuzzlePage, ih]

theorem solutionPagesOf_map_drawn (chs : List (List Puzzle)) :
    solutionPagesOf (chs.map drawPuzzlePage) = [] := by
  induction chs with
  | nil => simp [solutionPagesOf]
  | cons hd tl ih => simp [solutionPagesOf, drawPuzzlePage, ih]

theorem puzzlePagesOf_generate {B M : Type} (R : ChessRules B M) (puzzles : List Puzzle) :
    puzzlePagesOf (generate R puzzles) = (puzzlePageChunks puzzles).map (fun ch => ch.take 9) := by
  unfold generate
  rw [puzzlePagesOf_append, puzzlePagesOf_map_sol, puzzlePagesOf_map_drawn, List.append_nil]

theorem solutionPagesOf_generate {B M : Type} (R : ChessRules B M) (puzzles : List Puzzle) :
    solutionPagesOf (generate R puzzles) = draw_all_solutions R puzzles := by
  unfold generate
  rw [solutionPagesOf_append, solutionPagesOf_map_sol, solutionPagesOf_map_drawn, List.nil_append]

/-! ## Claim C1 -/

/-- Claim C1, counterexample to the claim as stated.  The claim says
the class-body statements of the first ChessBoardRenderer execute at
class-definition time and raise NameError.  In fact CPython compiles
the module before executing anything, and tokenizing the region fails
at line 281 - the method definitions are indented 4 columns beneath a
class body indented 8 columns, matching no open indentation level - so
the import error is an IndentationError, not a NameError, and no
statement of the module ever executes. -/
theorem c1_counterexample :
    indentScan [0] rendererRegionLines = Except.error (PyErr.indentationError 281) ∧
    PyErr.indentationError 281 ≠ PyErr.nameError "self" :=
  ⟨rfl, by decide⟩

/-- Claim C1, amended: evaluating the module does fail and the first
ChessBoardRenderer together with its methods is unreachable as
written, but the failure is an IndentationError raised while compiling
(tokenizing) the module at line 281, before any statement executes;
the class-body statements referencing the unbound name self never run,
and only if the region had compiled as a class body would executing it
raise NameError on self at the first if-condition. -/
theorem c1_amended :
    indentScan [0] rendererRegionLines = Except.error (PyErr.indentationError 281) ∧
    execBody moduleGlobalsAtClassDef rendererClassBodyPrefix =
      Except.error (PyErr.nameError "self") :=
  ⟨rfl, rfl⟩

/-! ## Claim C8 -/

/-- Claim C8: for every list of puzzles, document generation produces
exactly ceil(len(puzzles)/9) puzzle pages - for naturals,
(len + 8) / 9 - and no puzzle page holds more than 9 diagrams. -/
theorem c8_puzzle_page_count {B M : Type} (R : ChessRules B M) (puzzles : List Puzzle) :
    (puzzlePagesOf (generate R puzzles)).length = (puzzles.length + 8) / 9 ∧
    (puzzlePagesOf (generate R puzzles)).all (fun pg => pg.length ≤ 9) = true := by
  constructor
  · rw [puzzlePagesOf_generate, List.length_map, puzzlePageChunks_length]
  · rw [puzzlePagesOf_generate, List.all_eq_true]
    intro pg hpg
    simp only [List.mem_map] at hpg
    obtain ⟨ch, _, hch⟩ := hpg
    subst hch
    simp only [decide_eq_true_eq, List.length_take]
    omega

/-! ## Claim C9 -/

/-- Claim C9: for every requested count, the random-ID probing
strategy of _fetch_random_puzzles makes at most count * 50 probe
attempts before giving up, whatever the probe outcomes are. -/
theorem c9_probe_attempt_cap {B M : Type} (R : ChessRules B M) (daily : Option PuzzleData)
    (probe : Nat → Option PuzzleData) (theme : String) (minRating maxRating : Int)
    (count : Nat) :
    (fetch_random_puzzles R daily probe theme minRating maxRating count).2 ≤ count * 50 := by
  unfold fetch_random_puzzles
  simpa using fetchRandomGo_attempts_le R probe theme minRating maxRating count (count * 50) 0 _

/-! ## Claim C10 -/

/-- Claim C10: for every input puzzle list, including the empty list
and lists of puzzles missing their position or move list, document
generation emits at least one solution page: the first solution-page
header is drawn unconditionally before the loop, so the final document
never has zero solution pages. -/
theorem c10_solution_page_exists {B M : Type} (R : ChessRules B M) (puzzles : List Puzzle) :
    1 ≤ (solutionPagesOf (generate R puzzles)).length := by
  rw [solutionPagesOf_generate]
  unfold draw_all_solutions
  simpa using drawSolutionsGo_length R (puzzles.enum.map (fun ip => (ip.1 + 1, ip.2)))
    solPageTopY 0 [] []

/-! ## Claims C6 and C7 -/

theorem formatPartsAux_length {B M : Type} (R : ChessRules B M) :
    ∀ (moves : List String) (board : B) (acc : List String),
      (formatPartsAux R board acc moves).length = acc.length + moves.length := by
  intro moves
  induction moves with
  | nil => intro board acc; simp [formatPartsAux]
  | cons m rest ih =>
    intro board acc
    simp only [formatPartsAux]
    cases hfu : R.fromUci m with
    | none =>
      rw [ih]
      simp only [List.length_append, List.length_cons, List.length_nil]
      omega
    | some mv =>
      cases hleg : R.isLegal board mv with
      | false =>
        dsimp only
        rw [hleg, if_pos (show (!false) = true by rfl)]
        rw [ih]
        simp only [List.length_append, List.length_cons, List.length_nil]
        omega
      | true =>
        dsimp only
        rw [hleg, if_neg (show ¬((!true) = true) by simp)]
        rw [ih]
        simp only [List.length_append, List.length_cons, List.length_nil]
        omega

/-- Claim C6, counterexample to the claim as stated.  The claim says
_format_solution produces exactly len(moves) display tokens for every
move list including the empty one; for the empty list that would be
zero tokens, whose space-join is the empty string, but the function
short-circuits to the fixed sentinel text instead (line 995-996). -/
theorem c6_counterexample :
    format_solution demoRules "fenA w" ([] : List String) = "No solution available" ∧
    "No solution available" ≠ String.intercalate " " ([] : List String) :=
  ⟨rfl, by decide⟩

/-- Claim C6, amended: for every non-empty move list the solution
formatter builds exactly len(moves) tokens, one per input move
regardless of legality, and returns their single-space join; the empty
move list instead returns the fixed sentinel string
"No solution available" rather than an empty token sequence. -/
theorem c6_amended {B M : Type} (R : ChessRules B M) (board : B) (moves : List String)
    (h : moves ≠ []) :
    (formatSolutionParts R board moves).length = moves.length ∧
    format_solution R board moves =
      String.intercalate " " (formatSolutionParts R board moves) := by
  have hlen : (formatSolutionParts R board moves).length = moves.length := by
    unfold formatSolutionParts
    simpa using formatPartsAux_length R moves board []
  refine ⟨hlen, ?_⟩
  have hne : ¬((formatSolutionParts R board moves).isEmpty = true) := by
    rw [List.isEmpty_iff]
    intro hemp
    rw [hemp] at hlen
    exact h (List.length_eq_zero.mp hlen.symm)
  unfold format_solution
  rw [if_neg (by simpa [List.isEmpty_iff] using h)]
  rw [if_neg hne]

theorem c6_amended_witness :
    (["e2e4"] : List String) ≠ [] ∧
    ((formatSolutionParts demoRules "fenA w" ["e2e4"]).length = (["e2e4"] : List String).length ∧
      format_solution demoRules "fenA w" ["e2e4"] =
        String.intercalate " " (formatSolutionParts demoRules "fenA w" ["e2e4"])) :=
  ⟨by decide, c6_amended demoRules "fenA w" ["e2e4"] (by decide)⟩

/-- Claim C7: in the solution formatter, whenever a listed move
parses but is not legal in the current working position, the emitted
token for it is the raw coordinate move wrapped in square brackets,
the working position is not advanced, and formatting continues for
the remaining moves from the unchanged working position. -/
theorem c7_illegal_move_localized {B M : Type} (R : ChessRules B M) (board : B)
    (acc : List String) (mUci : String) (rest : List String) (mv : M)
    (hparse : R.fromUci mUci = some mv) (hillegal : R.isLegal board mv = false) :
    formatPartsAux R board acc (mUci :: rest) =
      formatPartsAux R board (acc ++ ["[" ++ mUci ++ "]"]) rest := by
  simp [formatPartsAux, hparse, hillegal]

theorem c7_illegal_move_localized_witness :
    (demoRules.fromUci "a1a1" = some "a1a1" ∧ demoRules.isLegal "fenA w" "a1a1" = false) ∧
    formatPartsAux demoRules "fenA w" [] ["a1a1", "e2e4"] =
      formatPartsAux demoRules "fenA w" ["[" ++ "a1a1" ++ "]"] ["e2e4"] :=
  ⟨⟨rfl, rfl⟩, c7_illegal_move_localized demoRules "fenA w" [] "a1a1" ["e2e4"] "a1a1" rfl rfl⟩

/-! ## Claim C2 -/

/-- Claim C2, counterexample to the claim as stated.  dFail is an
acquired record whose derivation step fails (its first solution move
does not parse), yet fetch_puzzles_by_theme returns it rather than
dropping it, and the returned puzzle carries exactly the unmodified
initial position together with the full un-sliced move list. -/
theorem c2_counterexample :
    fetch_puzzles_by_theme demoRules (some [dFail]) none (fun _ => none) "fork" 800 1200 1 =
      [pFail] ∧
    pFail.fen = dFail.fen.getD startFen ∧ pFail.moves = dFail.solution :=
  ⟨by decide, rfl, rfl⟩

/-- Claim C2, amended: a record whose derivation step fails is not
dropped by the live acquisition path; _format_api_puzzle still
returns it, carrying the unmodified initial position and the full
un-sliced move list (the except branch of lines 191-193).  Records are
dropped on derivation failure only in the cache-sampling code of the
first, never-compiled ChessBoardRenderer class. -/
theorem c2_amended {B M : Type} (R : ChessRules B M) (d : PuzzleData) (p : Puzzle)
    (hfail : derivationFails R d = true) (hfmt : format_api_puzzle R d = some p) :
    p.fen = d.fen.getD startFen ∧ p.moves = d.solution := by
  simp only [format_api_puzzle] at hfmt
  simp only [derivationFails] at hfail
  by_cases hemp : isEmptyData d = true
  · rw [if_pos hemp] at hfmt
    exact absurd hfmt (by simp)
  · rw [if_neg hemp] at hfmt
    cases hpb : R.parseBoard (d.fen.getD startFen) with
    | none =>
      rw [hpb] at hfmt
      dsimp only at hfmt
      cases hfmt
      exact ⟨rfl, rfl⟩
    | some board =>
      rw [hpb] at hfmt hfail
      dsimp only at hfmt hfail
      cases hsol : d.solution with
      | nil =>
        rw [hsol] at hfail
        exact absurd hfail (by simp)
      | cons m0 restMoves =>
        rw [hsol] at hfmt hfail
        dsimp only at hfmt hfail
        cases hfu : R.fromUci m0 with
        | none =>
          rw [hfu] at hfmt
          dsimp only at hfmt
          cases hfmt
          exact ⟨rfl, rfl⟩
        | some mv =>
          rw [hfu] at hfail
          exact absurd hfail (by simp)

theorem c2_amended_witness :
    (derivationFails demoRules dFail = true ∧
      format_api_puzzle demoRules dFail = some pFail) ∧
    (pFail.fen = dFail.fen.getD startFen ∧ pFail.moves = dFail.solution) :=
  ⟨⟨rfl, rfl⟩, c2_amended demoRules dFail pFail rfl rfl⟩

/-- The conversion loop of _sample_from_cache (in the dead first
ChessBoardRenderer class) does drop records whose derivation step
raises: every record it skips leaves the output unchanged.  Stated for
completeness next to claim C2: the drop-on-failure language of the
specification matches only this unreachable path. -/
theorem sampleFromCacheConvert_drops {B M : Type} (R : ChessRules B M) (d : PuzzleData)
    (rest : List PuzzleData) (hpb : R.parseBoard (d.fen.getD "") = none) :
    sampleFromCacheConvert R (d :: rest) = sampleFromCacheConvert R rest := by
  simp [sampleFromCacheConvert, hpb]

theorem sampleFromCacheConvert_drops_witness :
    demoRules.parseBoard ((⟨some "x", some "badfen", some 1, ["fork"], ["e2e4"]⟩ :
        PuzzleData).fen.getD "") = none ∧
    sampleFromCacheConvert demoRules
        [⟨some "x", some "badfen", some 1, ["fork"], ["e2e4"]⟩] =
      sampleFromCacheConvert demoRules [] :=
  ⟨rfl, sampleFromCacheConvert_drops demoRules ⟨some "x", some "badfen", some 1, ["fork"], ["e2e4"]⟩ [] rfl⟩

/-! ## Claim C4 -/

/-- Claim C4, counterexample to the claim as stated.  The claim says
render_position never propagates an exception and returns a blank
placeholder on any failure, including an unparsable position.  But
chess.Board(fen) on line 618 sits outside the try block, so an
unparsable position raises out of render_position instead of
producing the placeholder. -/
theorem c4_counterexample :
    render_position demoRenderEnvOk "badfen" none = Except.error ("invalid fen: " ++ "badfen") ∧
    (Except.error ("invalid fen: " ++ "badfen") : Except String Img) ≠ Except.ok blankImage :=
  ⟨rfl, by simp⟩

/-- Claim C4, amended: an unparsable position raises out of
render_position (chess.Board is evaluated before the try block); for
every input whose position parses, render_position never propagates an
exception - any failure of the drawing phase is caught and the blank
400 by 400 placeholder is returned. -/
theorem c4_amended {B M : Type} (E : RenderEnv B M) (fen : String) (lastMove : Option String)
    (b : B) (hparse : E.rules.parseBoard fen = some b) :
    ∃ img, render_position E fen lastMove = Except.ok img := by
  simp only [render_position, hparse]
  cases hdraw : E.drawBoard b (!E.rules.turn b)
      (match lastMove with
        | none => none
        | some lm => E.rules.fromUci lm) with
  | ok img => exact ⟨img, rfl⟩
  | error e => exact ⟨blankImage, rfl⟩

theorem c4_amended_witness :
    demoRenderEnvFail.rules.parseBoard "fenA w" = some "fenA w" ∧
    ∃ img, render_position demoRenderEnvFail "fenA w" none = Except.ok img :=
  ⟨rfl, c4_amended demoRenderEnvFail "fenA w" none "fenA w" rfl⟩

/-! ## Claim C5 -/

/-- Claim C5, counterexample to the claim as stated.  dNoRating
matches the request (fork, 0, 500, 1): its missing rating field
defaults to 0 in the filters, which lies inside [0, 500].  But
_format_api_puzzle fills a missing rating with the different default
1000, so the returned record carries rating 1000, outside the
requested range - the claim fails for the rating field as it appears
after formatting. -/
theorem c5_counterexample :
    fetch_puzzles_by_theme demoRules (some [dNoRating]) none (fun _ => none) "fork" 0 500 1 =
      [pNoRating] ∧
    ¬((0 : Int) ≤ pNoRating.rating ∧ pNoRating.rating ≤ 500) :=
  ⟨by decide, by decide⟩

theorem matches_criteria_imp_filter (d : PuzzleData) (theme : String)
    (minRating maxRating : Int) (h : matches_criteria d theme minRating maxRating = true) :
    activityFilter d theme minRating maxRating = true := by
  unfold matches_criteria at h
  by_cases hemp : isEmptyData d = true
  · rw [if_pos hemp] at h
    exact absurd h (by simp)
  · rw [if_neg hemp] at h
    exact h

/-- A record that passes the rating/theme filter and carries an
explicit rating field formats into a puzzle inside the requested
rating band whose themes contain the requested theme
case-insensitively. -/
theorem activityFilter_format_good {B M : Type} (R : ChessRules B M) (d : PuzzleData)
    (theme : String) (minRating maxRating : Int) (hr : d.rating.isSome)
    (hf : activityFilter d theme minRating maxRating = true) (p : Puzzle)
    (hp : format_api_puzzle R d = some p) :
    minRating ≤ p.rating ∧ p.rating ≤ maxRating ∧ pyLower theme ∈ p.themes.map pyLower := by
  obtain ⟨r, hrr⟩ := Option.isSome_iff_exists.mp hr
  unfold activityFilter at hf
  rw [hrr] at hf
  dsimp only [Option.getD] at hf
  by_cases h1 : (r < minRating || r > maxRating) = true
  · rw [if_pos h1] at hf
    exact absurd hf (by simp)
  · rw [if_neg h1] at hf
    by_cases h2 : (!(d.themes.map pyLower).contains (pyLower theme)) = true
    · rw [if_pos h2] at hf
      exact absurd hf (by simp)
    · have hcont : (d.themes.map pyLower).contains (pyLower theme) = true := by
        cases hx : (d.themes.map pyLower).contains (pyLower theme) with
        | true => rfl
        | false => rw [hx] at h2; exact absurd rfl h2
      have hmem : pyLower theme ∈ d.themes.map pyLower := by
        simpa only [List.contains, List.elem_eq_mem, decide_eq_true_eq] using hcont
      have hrange : minRating ≤ r ∧ r ≤ maxRating := by
        simp only [Bool.or_eq_true, decide_eq_true_eq, not_or] at h1
        omega
      unfold format_api_puzzle at hp
      have hemp : ¬(isEmptyData d = true) := by
        intro he
        unfold isEmptyData at he
        simp only [Bool.and_eq_true, List.isEmpty_iff] at he
        rw [he.1.2] at hmem
        simp at hmem
      rw [if_neg hemp] at hp
      dsimp only at hp
      cases hp
      dsimp only
      rw [hrr]
      dsimp only [Option.getD]
      exact ⟨hrange.1, hrange.2, hmem⟩

theorem collectActivity_mem {B M : Type} (R : ChessRules B M) (theme : String)
    (minRating maxRating : Int) (count : Nat) :
    ∀ (es : List PuzzleData) (acc : List Puzzle) (p : Puzzle),
      p ∈ collectActivity R theme minRating maxRating count acc es →
      p ∈ acc ∨ ∃ d ∈ es, activityFilter d theme minRating maxRating = true ∧
        format_api_puzzle R d = some p := by
  intro es
  induction es with
  | nil =>
    intro acc p hp
    left
    simpa [collectActivity] using hp
  | cons d rest ih =>
    intro acc p hp
    simp only [collectActivity] at hp
    by_cases hc : count ≤ acc.length
    · rw [if_pos hc] at hp
      left
      exact hp
    · rw [if_neg hc] at hp
      by_cases hf : activityFilter d theme minRating maxRating = true
      · rw [if_pos hf] at hp
        rcases ih _ p hp with hacc | ⟨d2, hd2, hfilt, hfmt⟩
        · rcases List.mem_append.mp hacc with h | h
          · left
            exact h
          · right
            refine ⟨d, List.mem_cons_self d rest, hf, ?_⟩
            cases hft : format_api_puzzle R d with
            | none => rw [hft] at h; simp at h
            | some q =>
              rw [hft] at h
              simp only [Option.toList_some, List.mem_singleton] at h
              rw [h]
        · right
          exact ⟨d2, List.mem_cons_of_mem d hd2, hfilt, hfmt⟩
      · rw [if_neg hf] at hp
        rcases ih _ p hp with hacc | ⟨d2, hd2, hfilt, hfmt⟩
        · left
          exact hacc
        · right
          exact ⟨d2, List.mem_cons_of_mem d hd2, hfilt, hfmt⟩

theorem fetchRandomGo_mem {B M : Type} (R : ChessRules B M)
    (probe : Nat → Option PuzzleData) (theme : String) (minRating maxRating : Int)
    (count : Nat) :
    ∀ (fuel attempts : Nat) (puzzles : List Puzzle) (p : Puzzle),
      p ∈ (fetchRandomGo R probe theme minRating maxRating count fuel attempts puzzles).1 →
      p ∈ puzzles ∨ ∃ i d, probe i = some d ∧
        matches_criteria d theme minRating maxRating = true ∧
        format_api_puzzle R d = some p := by
  intro fuel
  induction fuel with
  | zero =>
    intro attempts puzzles p hp
    left
    simpa [fetchRandomGo] using hp
  | succ n ih =>
    intro attempts puzzles p hp
    simp only [fetchRandomGo] at hp
    by_cases hlen : puzzles.length < count
    · rw [if_pos hlen] at hp
      rcases ih (attempts + 1) _ p hp with hmem | hex
      · cases hpr : probe attempts with
        | none =>
          rw [hpr] at hmem
          left
          exact hmem
        | some d =>
          rw [hpr] at hmem
          dsimp only at hmem
          by_cases hm : matches_criteria d theme minRating maxRating = true
          · rw [if_pos hm] at hmem
            rcases List.mem_append.mp hmem with h | h
            · left
              exact h
            · right
              refine ⟨attempts, d, hpr, hm, ?_⟩
              cases hft : format_api_puzzle R d with
              | none => rw [hft] at h; simp at h
              | some q =>
                rw [hft] at h
                simp only [Option.toList_some, List.mem_singleton] at h
                rw [h]
          · rw [if_neg hm] at hmem
            left
            exact hmem
      · right
        exact hex
    · rw [if_neg hlen] at hp
      left
      exact hp

theorem fetch_random_mem {B M : Type} (R : ChessRules B M) (daily : Option PuzzleData)
    (probe : Nat → Option PuzzleData) (theme : String) (minRating maxRating : Int)
    (count : Nat) (p : Puzzle)
    (hp : p ∈ (fetch_random_puzzles R daily probe theme minRating maxRating count).1) :
    (∃ d, daily = some d ∧ matches_criteria d theme minRating maxRating = true ∧
      format_api_puzzle R d = some p) ∨
    (∃ i d, probe i = some d ∧ matches_criteria d theme minRating maxRating = true ∧
      format_api_puzzle R d = some p) := by
  unfold fetch_random_puzzles at hp
  rcases fetchRandomGo_mem R probe theme minRating maxRating count _ _ _ p hp with hinit | hex
  · left
    cases hd : daily with
    | none =>
      rw [hd] at hinit
      simp at hinit
    | some d =>
      rw [hd] at hinit
      dsimp only at hinit
      by_cases hm : matches_criteria d theme minRating maxRating = true
      · rw [if_pos hm] at hinit
        refine ⟨d, rfl, hm, ?_⟩
        cases hft : format_api_puzzle R d with
        | none => rw [hft] at hinit; simp at hinit
        | some q =>
          rw [hft] at hinit
          simp only [Option.toList_some, List.mem_singleton] at hinit
          rw [hinit]
      · rw [if_neg hm] at hinit
        simp at hinit
  · right
    exact hex

/-- Claim C5, amended: provided every record offered by the sources
carries an explicit rating field, every puzzle fetch_puzzles_by_theme
returns for (theme, minRating, maxRating, count) satisfies
minRating ≤ rating ≤ maxRating and theme.lower() is among the
lowercased themes of the returned record, rating and themes taken from
the formatted record.  (A record whose rating field is missing is
filtered against the default 0 but returned with the different default
1000, which the counterexample shows can escape the band.) -/
theorem c5_amended {B M : Type} (R : ChessRules B M)
    (activity : Option (List PuzzleData)) (daily : Option PuzzleData)
    (probe : Nat → Option PuzzleData) (theme : String) (minRating maxRating : Int)
    (count : Nat) (p : Puzzle)
    (hact : ∀ es, activity = some es → ∀ d ∈ es, d.rating.isSome)
    (hdaily : ∀ d, daily = some d → d.rating.isSome)
    (hprobe : ∀ i d, probe i = some d → d.rating.isSome)
    (hp : p ∈ fetch_puzzles_by_theme R activity daily probe theme minRating maxRating count) :
    minRating ≤ p.rating ∧ p.rating ≤ maxRating ∧ pyLower theme ∈ p.themes.map pyLower := by
  cases activity with
  | none =>
    unfold fetch_puzzles_by_theme at hp
    have hp2 := List.take_subset count _ hp
    rcases fetch_random_mem R daily probe theme minRating maxRating count p hp2 with
      ⟨d, hd, hm, hfmt⟩ | ⟨i, d, hd, hm, hfmt⟩
    · exact activityFilter_format_good R d theme minRating maxRating (hdaily d hd)
        (matches_criteria_imp_filter d theme minRating maxRating hm) p hfmt
    · exact activityFilter_format_good R d theme minRating maxRating (hprobe i d hd)
        (matches_criteria_imp_filter d theme minRating maxRating hm) p hfmt
  | some es =>
    unfold fetch_puzzles_by_theme at hp
    dsimp only at hp
    by_cases hlen :
        (collectActivity R theme minRating maxRating count [] es).length < count
    · rw [if_pos hlen] at hp
      have hp2 := List.take_subset count _ hp
      rcases List.mem_append.mp hp2 with h | h
      · rcases collectActivity_mem R theme minRating maxRating count es [] p h with
          habs | ⟨d, hd, hfilt, hfmt⟩
        · simp at habs
        · exact activityFilter_format_good R d theme minRating maxRating
            (hact es rfl d hd) hfilt p hfmt
      · rcases fetch_random_mem R daily probe theme minRating maxRating _ p h with
          ⟨d, hd, hm, hfmt⟩ | ⟨i, d, hd, hm, hfmt⟩
        · exact activityFilter_format_good R d theme minRating maxRating (hdaily d hd)
            (matches_criteria_imp_filter d theme minRating maxRating hm) p hfmt
        · exact activityFilter_format_good R d theme minRating maxRating (hprobe i d hd)
            (matches_criteria_imp_filter d theme minRating maxRating hm) p hfmt
    · rw [if_neg hlen] at hp
      have hp2 := List.take_subset count _ hp
      rcases collectActivity_mem R theme minRating maxRating count es [] p hp2 with
        habs | ⟨d, hd, hfilt, hfmt⟩
      · simp at habs
      · exact activityFilter_format_good R d theme minRating maxRating
          (hact es rfl d hd) hfilt p hfmt

theorem c5_amended_witness :
    ((∀ es, (some [dDup] : Option (List PuzzleData)) = some es → ∀ d ∈ es, d.rating.isSome) ∧
      (∀ d, (none : Option PuzzleData) = some d → d.rating.isSome) ∧
      (∀ i d, (fun _ : Nat => (none : Option PuzzleData)) i = some d → d.rating.isSome) ∧
      pDup ∈ fetch_puzzles_by_theme demoRules (some [dDup]) none
        (fun _ => none) "fork" 800 1200 1) ∧
    ((800 : Int) ≤ pDup.rating ∧ pDup.rating ≤ 1200 ∧
      pyLower "fork" ∈ pDup.themes.map pyLower) := by
  have h1 : ∀ es, (some [dDup] : Option (List PuzzleData)) = some es →
      ∀ d ∈ es, d.rating.isSome := by
    intro es hes d hd
    cases hes
    simp only [List.mem_singleton] at hd
    rw [hd]
    rfl
  have h2 : ∀ d, (none : Option PuzzleData) = some d → d.rating.isSome := by
    intro d hd
    cases hd
  have h3 : ∀ i d, (fun _ : Nat => (none : Option PuzzleData)) i = some d →
      d.rating.isSome := by
    intro i d hd
    cases hd
  have h4 : pDup ∈ fetch_puzzles_by_theme demoRules (some [dDup]) none
      (fun _ => none) "fork" 800 1200 1 := by decide
  exact ⟨⟨h1, h2, h3, h4⟩,
    c5_amended demoRules (some [dDup]) none (fun _ => none) "fork" 800 1200 1 pDup h1 h2 h3 h4⟩

/-! ## Claim C3 -/

/-- The id _format_api_puzzle gives a record (dict default
"unknown"). -/
def fmtId (d : PuzzleData) : String := d.pid.getD "unknown"

/-- The formatted ids of the records the probe loop can see at
attempts start, start+1, ..., start+n-1. -/
def probeIds (probe : Nat → Option PuzzleData) (start n : Nat) : List String :=
  (List.range' start n).filterMap (fun i => (probe i).map fmtId)

/-- The formatted ids of every record any strategy of the chain can
draw from: the activity entries, the daily record and the probed
records of the at most count * 50 attempts. -/
def allSourceIds (activity : Option (List PuzzleData)) (daily : Option PuzzleData)
    (probe : Nat → Option PuzzleData) (count : Nat) : List String :=
  (activity.getD []).map fmtId ++ daily.toList.map fmtId ++ probeIds probe 0 (count * 50)

theorem format_api_puzzle_pid {B M : Type} (R : ChessRules B M) (d : PuzzleData)
    (p : Puzzle) (h : format_api_puzzle R d = some p) : p.pid = fmtId d := by
  unfold format_api_puzzle at h
  by_cases hemp : isEmptyData d = true
  · rw [if_pos hemp] at h
    exact absurd h (by simp)
  · rw [if_neg hemp] at h
    dsimp only at h
    cases h
    rfl

theorem collectActivity_ids {B M : Type} (R : ChessRules B M) (theme : String)
    (minRating maxRating : Int) (count : Nat) :
    ∀ (es : List PuzzleData) (acc : List Puzzle),
      ∃ t, (collectActivity R theme minRating maxRating count acc es).map Puzzle.pid =
        acc.map Puzzle.pid ++ t ∧ t <+ es.map fmtId := by
  intro es
  induction es with
  | nil =>
    intro acc
    exact ⟨[], by simp [collectActivity], List.nil_sublist _⟩
  | cons d rest ih =>
    intro acc
    simp only [collectActivity, List.map_cons]
    by_cases hc : count ≤ acc.length
    · rw [if_pos hc]
      exact ⟨[], by simp, List.nil_sublist _⟩
    · rw [if_neg hc]
      by_cases hf : activityFilter d theme minRating maxRating = true
      · rw [if_pos hf]
        obtain ⟨t, ht, hsub⟩ := ih (acc ++ (format_api_puzzle R d).toList)
        cases hft : format_api_puzzle R d with
        | none =>
          rw [hft] at ht
          refine ⟨t, ?_, hsub.cons _⟩
          rw [ht]
          simp
        | some q =>
          rw [hft] at ht
          have hq := format_api_puzzle_pid R d q hft
          refine ⟨q.pid :: t, ?_, ?_⟩
          · rw [ht]
            simp
          · rw [hq]
            exact List.Sublist.cons₂ _ hsub
      · rw [if_neg hf]
        obtain ⟨t, ht, hsub⟩ := ih acc
        exact ⟨t, ht, hsub.cons _⟩

theorem fetchRandomGo_ids {B M : Type} (R : ChessRules B M)
    (probe : Nat → Option PuzzleData) (theme : String) (minRating maxRating : Int)
    (count : Nat) :
    ∀ (fuel attempts : Nat) (puzzles : List Puzzle),
      ∃ t, ((fetchRandomGo R probe theme minRating maxRating count fuel attempts puzzles).1).map
          Puzzle.pid = puzzles.map Puzzle.pid ++ t ∧ t <+ probeIds probe attempts fuel := by
  intro fuel
  induction fuel with
  | zero =>
    intro attempts puzzles
    exact ⟨[], by simp [fetchRandomGo], List.nil_sublist _⟩
  | succ n ih =>
    intro attempts puzzles
    simp only [fetchRandomGo]
    by_cases hlen : puzzles.length < count
    · rw [if_pos hlen]
      cases hpr : probe attempts with
      | none =>
        have hpid : probeIds probe attempts (n + 1) = probeIds probe (attempts + 1) n := by
          unfold probeIds
          rw [List.range'_succ]
          simp [List.filterMap_cons, hpr]
        dsimp only
        obtain ⟨t, ht, hsub⟩ := ih (attempts + 1) puzzles
        exact ⟨t, ht, by rw [hpid]; exact hsub⟩
      | some d =>
        have hpid : probeIds probe attempts (n + 1) =
            fmtId d :: probeIds probe (attempts + 1) n := by
          unfold probeIds
          rw [List.range'_succ]
          simp [List.filterMap_cons, hpr]
        dsimp only
        by_cases hm : matches_criteria d theme minRating maxRating = true
        · rw [if_pos hm]
          obtain ⟨t, ht, hsub⟩ := ih (attempts + 1) (puzzles ++ (format_api_puzzle R d).toList)
          cases hft : format_api_puzzle R d with
          | none =>
            rw [hft] at ht
            refine ⟨t, ?_, ?_⟩
            · rw [ht]
              simp
            · rw [hpid]
              exact hsub.cons _
          | some q =>
            rw [hft] at ht
            have hq := format_api_puzzle_pid R d q hft
            refine ⟨q.pid :: t, ?_, ?_⟩
            · rw [ht]
              simp
            · rw [hpid, hq]
              exact List.Sublist.cons₂ _ hsub
        · rw [if_neg hm]
          obtain ⟨t, ht, hsub⟩ := ih (attempts + 1) puzzles
          refine ⟨t, ht, ?_⟩
          rw [hpid]
          exact hsub.cons _
    · rw [if_neg hlen]
      exact ⟨[], by simp, List.nil_sublist _⟩

theorem probeIds_mono (probe : Nat → Option PuzzleData) (a b : Nat) (h : a ≤ b) :
    probeIds probe 0 a <+ probeIds probe 0 b := by
  unfold probeIds
  exact List.Sublist.filterMap _ (List.range'_sublist_right.mpr h)

theorem fetch_random_ids {B M : Type} (R : ChessRules B M) (daily : Option PuzzleData)
    (probe : Nat → Option PuzzleData) (theme : String) (minRating maxRating : Int)
    (count : Nat) :
    ((fetch_random_puzzles R daily probe theme minRating maxRating count).1).map Puzzle.pid <+
      daily.toList.map fmtId ++ probeIds probe 0 (count * 50) := by
  unfold fetch_random_puzzles
  obtain ⟨t, ht, hsub⟩ := fetchRandomGo_ids R probe theme minRating maxRating count
    (count * 50) 0
      (match daily with
      | none => []
      | some d =>
        if matches_criteria d theme minRating maxRating = true then
          (format_api_puzzle R d).toList
        else [])
  rw [ht]
  refine List.Sublist.append ?_ hsub
  cases daily with
  | none => exact List.nil_sublist _
  | some d =>
    dsimp only
    by_cases hm : matches_criteria d theme minRating maxRating = true
    · rw [if_pos hm]
      cases hft : format_api_puzzle R d with
      | none => exact List.nil_sublist _
      | some q =>
        have hq := format_api_puzzle_pid R d q hft
        simp only [Option.toList_some, List.map_cons, List.map_nil, hq]
        exact List.Sublist.refl _
    · rw [if_neg hm]
      exact List.nil_sublist _

/-- The ids of the list fetch_puzzles_by_theme returns form a sublist
of the formatted ids of the records its sources supplied, in order:
the chain only ever appends formatted source records. -/
theorem fetch_ids_sublist {B M : Type} (R : ChessRules B M)
    (activity : Option (List PuzzleData)) (daily : Option PuzzleData)
    (probe : Nat → Option PuzzleData) (theme : String) (minRating maxRating : Int)
    (count : Nat) :
    ((fetch_puzzles_by_theme R activity daily probe theme minRating maxRating count).map
        Puzzle.pid) <+ allSourceIds activity daily probe count := by
  unfold fetch_puzzles_by_theme allSourceIds
  cases activity with
  | none =>
    dsimp only
    rw [List.map_take]
    refine ((List.take_sublist _ _).trans
      (fetch_random_ids R daily probe theme minRating maxRating count)).trans ?_
    simp only [Option.getD_none, List.map_nil, List.nil_append]
    exact List.Sublist.refl _
  | some es =>
    dsimp only
    rw [List.map_take]
    by_cases hlen :
        (collectActivity R theme minRating maxRating count [] es).length < count
    · rw [if_pos hlen]
      refine (List.take_sublist _ _).trans ?_
      rw [List.map_append]
      obtain ⟨t, ht, hsub⟩ := collectActivity_ids R theme minRating maxRating count es []
      rw [ht]
      simp only [List.map_nil, List.nil_append, Option.getD_some]
      have hr := fetch_random_ids R daily probe theme minRating maxRating
        (count - (collectActivity R theme minRating maxRating count [] es).length)
      have hr2 : ((fetch_random_puzzles R daily probe theme minRating maxRating
          (count - (collectActivity R theme minRating maxRating count [] es).length)).1).map
            Puzzle.pid <+
          daily.toList.map fmtId ++ probeIds probe 0 (count * 50) := by
        refine hr.trans (List.Sublist.append (List.Sublist.refl _) ?_)
        exact probeIds_mono probe _ _ (Nat.mul_le_mul_right 50 (Nat.sub_le _ _))
      rw [List.append_assoc]
      exact List.Sublist.append hsub hr2
    · rw [if_neg hlen]
      refine (List.take_sublist _ _).trans ?_
      obtain ⟨t, ht, hsub⟩ := collectActivity_ids R theme minRating maxRating count es []
      rw [ht]
      simp only [List.map_nil, List.nil_append, Option.getD_some]
      rw [List.append_assoc]
      exact hsub.trans (List.sublist_append_left _ _)

/-- Claim C3, counterexample to the claim as stated.  The chain
performs no deduplication: when the activity response repeats a
matching record, fetch_puzzles_by_theme returns two records sharing
the same id, and no curated fallback is involved (the curated tables
live in the never-compiled first ChessBoardRenderer class and are not
called by the chain at all). -/
theorem c3_counterexample :
    fetch_puzzles_by_theme demoRules (some [dDup, dDup]) none (fun _ => none)
        "fork" 800 1200 2 = [pDup, pDup] ∧
    ¬(([pDup, pDup].map Puzzle.pid).Nodup) :=
  ⟨by decide, by decide⟩

/-- Claim C3, amended: fetch_puzzles_by_theme performs no
deduplication of its own; its returned ids are merely a sublist of the
formatted ids its sources supply, so the returned list contains no two
records sharing an id exactly when the source-supplied candidates
(activity entries, daily record, probes) carry pairwise-distinct
formatted ids.  When a source repeats an id - or two id-less records
both format to "unknown" - the duplicate is returned. -/
theorem c3_amended {B M : Type} (R : ChessRules B M)
    (activity : Option (List PuzzleData)) (daily : Option PuzzleData)
    (probe : Nat → Option PuzzleData) (theme : String) (minRating maxRating : Int)
    (count : Nat) (h : (allSourceIds activity daily probe count).Nodup) :
    ((fetch_puzzles_by_theme R activity daily probe theme minRating maxRating count).map
        Puzzle.pid).Nodup :=
  List.Nodup.sublist
    (fetch_ids_sublist R activity daily probe theme minRating maxRating count) h

/-- A second matching record with a distinct id. -/
def dOther : PuzzleData := ⟨some "bbb", some "fenA w", some 1000, ["fork"], []⟩

theorem c3_amended_witness :
    (allSourceIds (some [dDup, dOther]) none (fun _ => none) 2).Nodup ∧
    ((fetch_puzzles_by_theme demoRules (some [dDup, dOther]) none (fun _ => none)
        "fork" 800 1200 2).map Puzzle.pid).Nodup :=
  ⟨by decide,
    c3_amended demoRules (some [dDup, dOther]) none (fun _ => none) "fork" 800 1200 2
      (by decide)⟩

end PuzzlePrinter
